import Mathlib

/-!
# Verification of the syntrojs-logger compliance core

Shallow embedding of the enrichment/compliance pipeline of the
syntrojs-logger repository: log levels (src/levels.ts), the field filter
(src/compliance/LoggingMatrix.ts), the sanitization engine
(src/sanitization/SanitizationEngine.ts), the masking engine
(src/masking/MaskingEngine.ts), the correlation context
(src/context/Context.ts) and the record-assembly logic of the logger
orchestrator (src/Logger.ts).

JavaScript values are modelled by the inductive type JSVal; JS objects are
modelled as insertion-ordered association lists with unique keys, which is
exactly the observable behaviour of plain JS objects.  A thrown exception
inside the masking recursion is modelled by Option (none = throw).
-/

set_option autoImplicit false

namespace SynLog

/-- JavaScript runtime values, as far as the logging core observes them:
undefined, null, booleans, numbers, strings, functions (opaque, identified
by a tag), arrays, plain data objects (constructor === Object) and class
instances (any other object; cls names the constructor, fields are the own
enumerable properties that Object.keys would report). -/
inductive JSVal where
  | undefined : JSVal
  | vnull : JSVal
  | vbool : Bool → JSVal
  | vnum : Int → JSVal
  | vstr : String → JSVal
  | vfun : Nat → JSVal
  | varr : List JSVal → JSVal
  | vobj : List (String × JSVal) → JSVal
  | vinst : String → List (String × JSVal) → JSVal
  deriving Repr

/-- A JS object: insertion-ordered association list of own enumerable keys. -/
abbrev JSObj := List (String × JSVal)

/-- Property read obj[key]: the first entry with the key, undefined if absent. -/
def lookupV (obj : JSObj) (key : String) : JSVal :=
  match obj.find? (fun e => e.1 == key) with
  | some e => e.2
  | none => .undefined

/-- Object.prototype.hasOwnProperty.call(obj, key). -/
def hasOwn (obj : JSObj) (key : String) : Bool :=
  (obj.find? (fun e => e.1 == key)).isSome

/-- Object.keys(obj), in insertion order. -/
def jsKeys (obj : JSObj) : List String :=
  obj.map Prod.fst

/-- JS String.prototype.toLowerCase restricted to the ASCII range the
logging matrix uses. -/
def jsToLower (s : String) : String :=
  String.mk (s.data.map Char.toLower)

/-! ## Log levels (src/levels.ts) -/

/-- The seven named severities of LOG_LEVEL_WEIGHTS in src/levels.ts. -/
inductive LogLevel where
  | fatal | error | warn | info | debug | trace | silent
  deriving DecidableEq, Repr, Fintype

/-- export const LOG_LEVEL_WEIGHTS (src/levels.ts). -/
def LOG_LEVEL_WEIGHTS : LogLevel → Nat
  | .fatal => 60
  | .error => 50
  | .warn => 40
  | .info => 30
  | .debug => 20
  | .trace => 10
  | .silent => 0

/-- export function isLevelEnabled(logLevel, configuredLevel) (src/levels.ts):
configured silent refuses everything, a silent call is never emitted,
otherwise compare weights. -/
def isLevelEnabled (logLevel configuredLevel : LogLevel) : Bool :=
  if configuredLevel = .silent then false
  else if logLevel = .silent then false
  else LOG_LEVEL_WEIGHTS configuredLevel ≤ LOG_LEVEL_WEIGHTS logLevel

/-! ## Field filter (src/compliance/LoggingMatrix.ts) -/

/-- Key of the logging matrix object: a level name or the string default. -/
inductive MatrixKey where
  | level (l : LogLevel)
  | dflt
  deriving DecidableEq, Repr

/-- The LoggingMatrix object: level (or default) to allow-list of field names. -/
abbrev LoggingMatrix := List (MatrixKey × List String)

/-- this.matrix[k] for a matrix object. -/
def matrixGet (m : LoggingMatrix) (k : MatrixKey) : Option (List String) :=
  (m.find? (fun e => e.1 == k)).map (fun e => e.2)

/-- FieldFilter.filterContext (src/compliance/LoggingMatrix.ts, lines 48-82),
translated clause by clause: empty matrix passes the context through;
fieldsToKeep = this.matrix[level] || this.matrix.default (an array is always
truthy, so the fallback fires only when the level has no entry); a missing or
empty allow-list yields an empty record; a wildcard entry passes the context
through; otherwise the keys of the context are filtered through the lowercased
allow-list set and re-read from the context. -/
def filterContext (m : LoggingMatrix) (context : JSObj) (level : LogLevel) : JSObj :=
  if m.isEmpty then context
  else
    match (matrixGet m (.level level)).orElse (fun _ => matrixGet m .dflt) with
    | none => []
    | some fieldsToKeep =>
      if fieldsToKeep.isEmpty then []
      else if fieldsToKeep.contains "*" then context
      else
        let allowedSet := fieldsToKeep.map jsToLower
        ((jsKeys context).filter
            (fun key => hasOwn context key && allowedSet.contains (jsToLower key))).map
          (fun key => (key, lookupV context key))

/-- The field-filter algorithm as the specification words it (spec section 4.2):
no matrix configured passes the context unchanged; otherwise the allow-list for
the level is resolved, falling back to default only when the level has no
explicit entry; an empty or absent allow-list yields the empty record; an
allow-list containing the wildcard yields the context unchanged; otherwise
exactly the keys whose lower-cased form is in the allow-list survive, with
original casing and values. -/
def filterContextSpec (m : LoggingMatrix) (context : JSObj) (level : LogLevel) : JSObj :=
  if m.isEmpty then context
  else
    let resolved :=
      match matrixGet m (.level level) with
      | some l => some l
      | none => matrixGet m .dflt
    match resolved with
    | none => []
    | some allow =>
      if allow.isEmpty then []
      else if allow.contains "*" then context
      else context.filter (fun kv => (allow.map jsToLower).contains (jsToLower kv.1))

/-! ## ReDoS heuristics (src/masking/MaskingEngine.ts, isSafeRegexBasic)

Each dangerous-pattern regex of the source is embedded as a character-level
matcher over the pattern text.  The regexes are built from literal characters,
character classes and stars of character classes, so match existence is the
existence of a suitable decomposition of the text; the scanners below try
every starting position and every split allowed by a star, which is exactly
what the backtracking regex engine decides. -/

/-- The character class [+*]. -/
def isQuantPM (c : Char) : Bool := c == '+' || c == '*'

/-- The character class (?:+|*|?). -/
def isQuant3 (c : Char) : Bool := c == '+' || c == '*' || c == '?'

/-- JS regex whitespace class, restricted to the ASCII range. -/
def jsIsSpace (c : Char) : Bool :=
  c == ' ' || c == '\t' || c == '\n' || c == '\r' || c.toNat == 11 || c.toNat == 12

/-- JS regex word class \w = [A-Za-z0-9_] on ASCII. -/
def isWordChar (c : Char) : Bool := c.isAlphanum || c == '_'

/-- After an opening parenthesis: does the rest match [^)]* q (?:+|*|?) ) [+*] ?
(q is the outer quantifier of the first three dangerous patterns). -/
def grpTail (q : Char) : List Char → Bool
  | [] => false
  | c :: cs =>
    (c == q &&
      (match cs with
       | x :: rp :: y :: _ => isQuant3 x && rp == ')' && isQuantPM y
       | _ => false))
    || (c != ')' && grpTail q cs)

/-- Match of /\([^)]*q(?:\+|\*|\?)\)[\+\*]/ anywhere in the text, for
q one of +, *, ? — the nested-quantifier patterns of the source. -/
def dpNested (q : Char) : List Char → Bool
  | [] => false
  | c :: cs => (c == '(' && grpTail q cs) || dpNested q cs

/-- \s*[\+\*] continuation used by the quantifier-on-quantifier patterns. -/
def afterWsQuant : List Char → Bool
  | [] => false
  | c :: cs => isQuantPM c || (jsIsSpace c && afterWsQuant cs)

/-- Match of /[\+\*]\s*[\+\*]/ anywhere. -/
def dpQuantQuant : List Char → Bool
  | [] => false
  | c :: cs => (isQuantPM c && afterWsQuant cs) || dpQuantQuant cs

/-- Match of /\?\s*[\+\*]/ anywhere. -/
def dpQmarkQuant : List Char → Bool
  | [] => false
  | c :: cs => (c == '?' && afterWsQuant cs) || dpQmarkQuant cs

/-- Skip \s*. -/
def skipWs (cs : List Char) : List Char := cs.dropWhile jsIsSpace

/-- Consume \w+ (maximal run; the following literal in every use is a
non-word character, so the maximal run is the only viable choice).
Returns the remainder, or none when no word character starts the text. -/
def wordRun (cs : List Char) : Option (List Char) :=
  match cs with
  | c :: rest => if isWordChar c then some (rest.dropWhile isWordChar) else none
  | [] => none

/-- \s*\|\s*\w+\)[\+\*] — tail of the alternation-with-repetition pattern. -/
def altTail2 (cs : List Char) : Bool :=
  match skipWs cs with
  | '|' :: cs2 =>
    (match wordRun (skipWs cs2) with
     | some (')' :: y :: _) => isQuantPM y
     | _ => false)
  | _ => false

/-- \s*\w+\+ then altTail2 — after the first bar of the alternation pattern. -/
def altTail1 (cs : List Char) : Bool :=
  match wordRun (skipWs cs) with
  | some ('+' :: cs2) => altTail2 cs2
  | _ => false

/-- After an opening parenthesis: [^)]* then a bar starting altTail1. -/
def grpAltTail : List Char → Bool
  | [] => false
  | c :: cs => (c == '|' && altTail1 cs) || (c != ')' && grpAltTail cs)

/-- Match of /\([^)]*\|\s*\w+\+\s*\|\s*\w+\)[\+\*]/ anywhere. -/
def dpAltRep : List Char → Bool
  | [] => false
  | c :: cs => (c == '(' && grpAltTail cs) || dpAltRep cs

/-- The character class [\(\)\|\+\*]. -/
def isMeta5 (c : Char) : Bool :=
  c == '(' || c == ')' || c == '|' || c == '+' || c == '*'

/-- After an opening parenthesis: [^)]*\)[\+\*]\s*[\(\)\|\+\*]{5,}.
The group content cannot contain a closing parenthesis, so it runs exactly to
the first one; whitespace and the meta class are disjoint, so the greedy
\s* is the only viable split. -/
def grpCloseTail (cs : List Char) : Bool :=
  match cs.dropWhile (fun d => d != ')') with
  | ')' :: y :: cs2 =>
    isQuantPM y &&
    (match skipWs cs2 with
     | a :: b :: c :: d :: e :: _ =>
       isMeta5 a && isMeta5 b && isMeta5 c && isMeta5 d && isMeta5 e
     | _ => false)
  | _ => false

/-- Match of /\([^)]*\)[\+\*]\s*[\(\)\|\+\*]{5,}/ anywhere. -/
def dpGroupRepMeta : List Char → Bool
  | [] => false
  | c :: cs => (c == '(' && grpCloseTail cs) || dpGroupRepMeta cs

/-- Does the group content (the text strictly before the first closing
parenthesis) end in a quantifier followed by a question mark? -/
def contentEndsQuantQmark (content : List Char) : Bool :=
  match content.reverse with
  | '?' :: q :: _ => isQuantPM q
  | _ => false

/-- Try to match /\([^)]*[\+\*]\?\)[\+\*]/ right after an opening parenthesis;
returns the remainder after the match. The group content runs to the first
closing parenthesis, so the match at a position is unique. -/
def matchNestedAt (cs : List Char) : Option (List Char) :=
  let content := cs.takeWhile (fun d => d != ')')
  match cs.dropWhile (fun d => d != ')') with
  | _ :: y :: cs2 =>
    if isQuantPM y && contentEndsQuantQmark content then some cs2 else none
  | _ => none

/-- Worker for countNested.  The fuel only bounds the recursion depth: every
step strictly shortens the text (a successful match consumes at least the
closing parenthesis and the quantifier), so fuel = initial length is always
enough and the fuel never actually runs out. -/
def countNestedAux : Nat → List Char → Nat
  | 0, _ => 0
  | _, [] => 0
  | fuel + 1, c :: cs =>
    if c == '(' then
      match matchNestedAt cs with
      | some cs2 => 1 + countNestedAux fuel cs2
      | none => countNestedAux fuel cs
    else countNestedAux fuel cs

/-- Number of matches of /\([^)]*[\+\*]\?\)[\+\*]/g in the text: the global
regex finds leftmost matches and resumes after each one. -/
def countNested (cs : List Char) : Nat :=
  countNestedAux cs.length cs

/-- After the bar inside the final heuristic: \s*[^)]+\)[\+\*]{2,}.
A nonempty stretch of non-parenthesis characters must separate the bar from
the first closing parenthesis, which must be followed by two quantifiers. -/
def lastAfterBar (cs : List Char) : Bool :=
  match cs with
  | [] => false
  | c :: _ =>
    c != ')' &&
    (match cs.dropWhile (fun d => d != ')') with
     | ')' :: a :: b :: _ => isQuantPM a && isQuantPM b
     | _ => false)

/-- After an opening parenthesis: [^)]* then a bar starting lastAfterBar. -/
def lastGrpTail : List Char → Bool
  | [] => false
  | c :: cs => (c == '|' && lastAfterBar cs) || (c != ')' && lastGrpTail cs)

/-- Match of /\([^)]*\|\s*[^)]+\)[\+\*]{2,}/ anywhere — the exponential
backtracking check at the end of isSafeRegexBasic. -/
def dpLastAlt : List Char → Bool
  | [] => false
  | c :: cs => (c == '(' && lastGrpTail cs) || dpLastAlt cs

/-- function isSafeRegexBasic (src/masking/MaskingEngine.ts, lines 13-61):
empty pattern is safe; any dangerous-pattern match is unsafe; more than two
global matches of the nested-quantifier shape are unsafe; the final
exponential-backtracking shape is unsafe; everything else is safe. -/
def isSafeRegexBasic (patternStr : String) : Bool :=
  if patternStr == "" then true
  else
    let cs := patternStr.data
    let hasDangerousPattern :=
      dpNested '+' cs || dpNested '*' cs || dpNested '?' cs ||
      dpQuantQuant cs || dpQmarkQuant cs || dpAltRep cs || dpGroupRepMeta cs
    if hasDangerousPattern then false
    else if 2 < countNested cs then false
    else if dpLastAlt cs then false
    else true

/-- function isSafeRegex (src/masking/MaskingEngine.ts, lines 76-99): tries to
require the optional safe-regex package and falls back to the basic
validation.  safe-regex is not a declared dependency of the package (the
repository docs list chalk as the only dependency and note that safe-regex
would still have to be added), so as shipped the require throws and the
fallback always runs. -/
def isSafeRegex (patternStr : String) : Bool :=
  isSafeRegexBasic patternStr

/-! ## JS string primitives used by the masking strategies -/

/-- count copies of a string, concatenated. -/
def repeatStr (s : String) : Nat → String
  | 0 => ""
  | n + 1 => s ++ repeatStr s n

/-- String.prototype.repeat: throws a RangeError on a negative count
(modelled as none), otherwise count concatenated copies. -/
def jsRepeat (s : String) (count : Int) : Option String :=
  if count < 0 then none
  else some (repeatStr s count.toNat)

/-- String.prototype.substring(a, b): clamps both arguments into [0, length]
and swaps them when out of order. -/
def jsSubstring (s : String) (a b : Int) : String :=
  let n : Int := s.length
  let a' := min (max a 0) n
  let b' := min (max b 0) n
  let lo := min a' b'
  let hi := max a' b'
  String.mk ((s.data.drop lo.toNat).take (hi - lo).toNat)

/-- String.prototype.substring(a) — up to the end of the string. -/
def jsSubstringFrom (s : String) (a : Int) : String :=
  jsSubstring s a s.length

/-- String.prototype.charAt(i): one-character string, empty when out of range. -/
def jsCharAt (s : String) (i : Nat) : String :=
  match s.data.get? i with
  | some c => String.mk [c]
  | none => ""

/-- String.prototype.slice(-n): the last n characters (the whole string when
it is shorter than n). -/
def jsSliceNeg (s : String) (n : Nat) : String :=
  String.mk (s.data.drop (s.length - n))

/-- value.replace(/\D/g, ...): the digits of the string. -/
def digitsOf (s : String) : String :=
  String.mk (s.data.filter Char.isDigit)

/-- value.replace(/\d/g, (match, offset) => digitIndex < keep ? maskChar :
match): every digit whose index among the digits is below keep is replaced by
the mask string, all other characters stay. -/
def replaceDigitsMask (maskChar : String) (keep : Int) : List Char → Nat → String
  | [], _ => ""
  | c :: cs, idx =>
    if c.isDigit then
      (if (idx : Int) < keep then maskChar else String.mk [c])
        ++ replaceDigitsMask maskChar keep cs (idx + 1)
    else String.mk [c] ++ replaceDigitsMask maskChar keep cs idx

/-! ## Masking engine (src/masking/MaskingEngine.ts) -/

/-- enum MaskingStrategy. -/
inductive MaskingStrategy where
  | credit_card | ssn | email | phone | password | token | custom
  deriving DecidableEq, Repr

/-- interface MaskingRule.  The pattern is carried both as its source text
(validated by addRule) and as the compiled case-insensitive matcher over
field names (an opaque test function, like the compiled RegExp).  A custom
mask function may itself throw, hence Option in its result. -/
structure MaskingRule where
  patternSrc : String
  matcher : String → Bool
  strategy : MaskingStrategy
  customMask : Option (String → Option String) := none
  preserveLength : Option Bool := none
  maskChar : Option String := none

/-- The mutable state of a MaskingEngine: the rule list plus the constructor
options and the initialized flag. -/
structure MaskingEngineState where
  rules : List MaskingRule
  maskChar : String := "*"
  preserveLength : Bool := true
  initialized : Bool := false

/-- MaskingEngine.maskCreditCard (lines 423-437). -/
def maskCreditCard (engMask : String) (rule : MaskingRule) (value : String) :
    Option String :=
  let clean := digitsOf value
  let maskChar := rule.maskChar.getD engMask
  if rule.preserveLength.getD false then
    some (replaceDigitsMask maskChar ((clean.length : Int) - 4) value.data 0)
  else do
    let m4 ← jsRepeat maskChar 4
    some (m4 ++ "-" ++ m4 ++ "-" ++ m4 ++ "-" ++ jsSliceNeg clean 4)

/-- MaskingEngine.maskSSN (lines 449-463): note the fixed format uses literal
asterisks, not the rule mask character. -/
def maskSSN (engMask : String) (rule : MaskingRule) (value : String) :
    Option String :=
  let clean := digitsOf value
  if rule.preserveLength.getD false then
    let maskChar := rule.maskChar.getD engMask
    some (replaceDigitsMask maskChar ((clean.length : Int) - 4) value.data 0)
  else
    some ("***-**-" ++ jsSliceNeg clean 4)

/-- MaskingEngine.maskDefault (lines 587-597). -/
def maskDefault (engMask : String) (rule : MaskingRule) (value : String) :
    Option String :=
  let maskChar := rule.maskChar.getD engMask
  if rule.preserveLength.getD false then
    jsRepeat maskChar value.length
  else
    jsRepeat maskChar (min value.length 8)

/-- value.indexOf(c): first index, -1 when absent. -/
def jsIndexOf (s : String) (c : Char) : Int :=
  match s.data.findIdx? (fun d => d == c) with
  | some i => (i : Int)
  | none => -1

/-- MaskingEngine.maskEmail (lines 475-500). -/
def maskEmail (engMask : String) (rule : MaskingRule) (value : String) :
    Option String :=
  let atIndex := jsIndexOf value '@'
  if atIndex ≤ 0 then maskDefault engMask rule value
  else
    let username := jsSubstring value 0 atIndex
    let domain := jsSubstringFrom value atIndex
    let maskChar := rule.maskChar.getD engMask
    if rule.preserveLength.getD false then
      if 1 < username.length then do
        let rep ← jsRepeat maskChar ((username.length : Int) - 1)
        some (jsCharAt username 0 ++ rep ++ domain)
      else do
        let rep ← jsRepeat maskChar username.length
        some (rep ++ domain)
    else
      some (jsCharAt username 0 ++ "***" ++ domain)

/-- MaskingEngine.maskPhone (lines 512-527). -/
def maskPhone (engMask : String) (rule : MaskingRule) (value : String) :
    Option String :=
  let clean := digitsOf value
  let maskChar := rule.maskChar.getD engMask
  if rule.preserveLength.getD false then
    some (replaceDigitsMask maskChar ((clean.length : Int) - 4) value.data 0)
  else do
    let m3 ← jsRepeat maskChar 3
    some (m3 ++ "-" ++ m3 ++ "-" ++ jsSliceNeg clean 4)

/-- MaskingEngine.maskPassword (lines 539-543). -/
def maskPassword (engMask : String) (rule : MaskingRule) (value : String) :
    Option String :=
  let maskChar := rule.maskChar.getD engMask
  jsRepeat maskChar value.length

/-- MaskingEngine.maskToken (lines 555-575).  In the preserve-length branch
the middle fill is maskChar.repeat(value.length - 9), which throws a
RangeError whenever the value is shorter than nine characters. -/
def maskToken (engMask : String) (rule : MaskingRule) (value : String) :
    Option String :=
  let maskChar := rule.maskChar.getD engMask
  if rule.preserveLength.getD false then do
    let mid ← jsRepeat maskChar ((value.length : Int) - 9)
    some (jsSubstring value 0 4 ++ mid ++ jsSubstringFrom value ((value.length : Int) - 5))
  else if value.length ≤ 8 then
    jsRepeat maskChar value.length
  else
    some (jsSubstring value 0 4 ++ "..." ++ jsSubstringFrom value ((value.length : Int) - 5))

/-- MaskingEngine.applyStrategy (lines 395-411): the CUSTOM guard first, then
the strategy dictionary (which holds the six built-in strategies), falling
back to maskDefault for strategies missing from the dictionary — in
particular a CUSTOM rule without a custom function. -/
def applyStrategy (engMask : String) (rule : MaskingRule) (value : String) :
    Option String :=
  match rule.strategy, rule.customMask with
  | .custom, some f => f value
  | _, _ =>
    match rule.strategy with
    | .credit_card => maskCreditCard engMask rule value
    | .ssn => maskSSN engMask rule value
    | .email => maskEmail engMask rule value
    | .phone => maskPhone engMask rule value
    | .password => maskPassword engMask rule value
    | .token => maskToken engMask rule value
    | .custom => maskDefault engMask rule value

/-- MaskingEngine.addRule (lines 242-273): validates the pattern against
ReDoS shapes and throws (Except.error, with a message naming the pattern and
the validation method) when unsafe; otherwise compiles the pattern and
appends the rule — with the engine defaults filled into its absent options —
to the rule list. -/
def addRule (st : MaskingEngineState) (rule : MaskingRule) :
    Except String MaskingEngineState :=
  if !isSafeRegex rule.patternSrc then
    .error ("[MaskingEngine] Unsafe regex pattern detected: \"" ++ rule.patternSrc ++
      "\". This pattern could cause ReDoS (Regular Expression Denial of Service) attacks. " ++
      "Please review and simplify the pattern to avoid nested quantifiers and exponential " ++
      "backtracking. (Validated using: basic validation)")
  else
    let compiled :=
      { rule with
        preserveLength := some (rule.preserveLength.getD st.preserveLength)
        maskChar := some (rule.maskChar.getD st.maskChar) }
    .ok { st with rules := st.rules ++ [compiled] }

/-- MaskingEngine.findMatchingRule (lines 355-357): first rule whose compiled
pattern tests true on the field name.  The method reads only this.rules, so
the embedding takes the rule list directly. -/
def findMatchingRule (rules : List MaskingRule) (key : String) : Option MaskingRule :=
  rules.find? (fun rule => rule.matcher key)

/-- Is the value undefined? -/
def isUndefined : JSVal → Bool
  | .undefined => true
  | _ => false

mutual

/-- MaskingEngine.applyMaskingRules (lines 307-346).  null and
non-objects are returned as-is; arrays are mapped element-wise; any other
object — plain or class instance alike, since the plain-object re-check in
lines 320-322 repeats conditions that already failed — is rebuilt as a plain
object from its own enumerable keys.  A thrown exception (from a strategy or
a custom mask function) is none and propagates.  The recursion reads only
this.rules and this.maskChar of the engine, so the embedding takes them
directly. -/
def applyMaskingRules (rules : List MaskingRule) (engMask : String) :
    JSVal → Option JSVal
  | .undefined => some .undefined
  | .vnull => some .vnull
  | .vbool b => some (.vbool b)
  | .vnum n => some (.vnum n)
  | .vstr s => some (.vstr s)
  | .vfun i => some (.vfun i)
  | .varr l => do some (.varr (← maskArr rules engMask l))
  | .vobj fields => do some (.vobj (← maskFields rules engMask fields))
  | .vinst _ fields => do some (.vobj (← maskFields rules engMask fields))

/-- Element-wise masking of an array (data.map with exception propagation). -/
def maskArr (rules : List MaskingRule) (engMask : String) :
    List JSVal → Option (List JSVal)
  | [] => some []
  | v :: vs => do
    let v' ← applyMaskingRules rules engMask v
    let vs' ← maskArr rules engMask vs
    some (v' :: vs')

/-- The Object.keys reduce of applyMaskingRules: string values go through the
first matching rule's strategy, non-null objects recurse, everything else is
kept. -/
def maskFields (rules : List MaskingRule) (engMask : String) :
    List (String × JSVal) → Option (List (String × JSVal))
  | [] => some []
  | (key, v) :: rest => do
    let v' ←
      match v with
      | .vstr s =>
        (match findMatchingRule rules key with
         | some rule => do some (JSVal.vstr (← applyStrategy engMask rule s))
         | none => some (JSVal.vstr s))
      | .varr l => applyMaskingRules rules engMask (.varr l)
      | .vobj f => applyMaskingRules rules engMask (.vobj f)
      | .vinst c f => applyMaskingRules rules engMask (.vinst c f)
      | other => some other
    let rest' ← maskFields rules engMask rest
    some ((key, v') :: rest')

end

/-- typeof masked === object && masked !== null && !Array.isArray(masked). -/
def isRecordLike : JSVal → Bool
  | .vobj _ => true
  | .vinst _ _ => true
  | _ => false

/-- View a record-like value as a JS object (the Record cast in process). -/
def objFieldsOf : JSVal → JSObj
  | .vobj f => f
  | .vinst _ f => f
  | _ => []

/-- MaskingEngine.process (lines 280-298): sets the initialized flag, applies
the masking rules inside a try/catch, returns the masked data when it is a
record and the original metadata otherwise or when masking threw. -/
def maskProcess (st : MaskingEngineState) (meta : JSObj) :
    JSObj × MaskingEngineState :=
  let st' := { st with initialized := true }
  match applyMaskingRules st.rules st.maskChar (.vobj meta) with
  | some masked => (if isRecordLike masked then objFieldsOf masked else meta, st')
  | none => (meta, st')

/-- The statistics record of MaskingEngine.getStats (lines 603-620). -/
structure MaskingStats where
  initialized : Bool
  totalRules : Nat
  defaultRules : Nat
  customRules : Nat
  strategies : List MaskingStrategy
  deriving Repr

/-- MaskingEngine.getStats: read-only view of the engine state. -/
def getStats (st : MaskingEngineState) : MaskingStats × MaskingEngineState :=
  ({ initialized := st.initialized
     totalRules := st.rules.length
     defaultRules := (st.rules.filter (fun r =>
       [MaskingStrategy.credit_card, .ssn, .email, .phone, .password,
         .token].contains r.strategy)).length
     customRules := (st.rules.filter (fun r => r.strategy == .custom)).length
     strategies := st.rules.map (fun r => r.strategy) }, st)

/-- MaskingEngine.isInitialized (lines 626-628). -/
def isInitialized (st : MaskingEngineState) : Bool × MaskingEngineState :=
  (st.initialized, st)

/-- MaskingEngine.shutdown (lines 633-636): empties the rule list and clears
the initialized flag. -/
def shutdown (st : MaskingEngineState) : MaskingEngineState :=
  { st with rules := [], initialized := false }

/-! ## Sanitization engine (src/sanitization/SanitizationEngine.ts)

The ANSI regex
[\x1b\u009b][[()#;?]*(?:[0-9]{1,4}(?:;[0-9]{0,4})*)?[0-9A-ORZcf-nqry=><]|[\x1b\u009b]
is embedded with tiny parser combinators that enumerate candidate remainders
in the greedy backtracking order of the JS engine, so taking the first
candidate reproduces the match the engine picks. -/

/-- A combinator: candidate remainders after a match, preferred first. -/
abbrev CParser := List Char → List (List Char)

/-- Single character from a class. -/
def pClass (f : Char → Bool) : CParser := fun cs =>
  match cs with
  | c :: rest => if f c then [rest] else []
  | [] => []

/-- Sequencing, preserving preference order. -/
def pSeq (p q : CParser) : CParser := fun cs => (p cs).flatMap q

/-- Greedy option: try the body first, then the empty match. -/
def pOpt (p : CParser) : CParser := fun cs => p cs ++ [cs]

/-- Greedy repetition up to n times (n = input length turns it into a star,
since every body match here consumes at least one character). -/
def pRepUpTo (p : CParser) : Nat → CParser
  | 0 => fun cs => [cs]
  | n + 1 => fun cs => (p cs).flatMap (pRepUpTo p n) ++ [cs]

/-- The lead byte class [\x1b\u009b]. -/
def isAnsiLead (c : Char) : Bool := c.toNat == 0x1b || c.toNat == 0x9b

/-- The intermediate class [[()#;?]. -/
def isInterChar (c : Char) : Bool :=
  c == '[' || c == '(' || c == ')' || c == '#' || c == ';' || c == '?'

/-- The final byte class [0-9A-ORZcf-nqry=><]. -/
def isFinalByte (c : Char) : Bool :=
  c.isDigit || ('A' ≤ c && c ≤ 'O') || c == 'R' || c == 'Z' || c == 'c' ||
  ('f' ≤ c && c ≤ 'n') || c == 'q' || c == 'r' || c == 'y' ||
  c == '=' || c == '>' || c == '<'

/-- The body after the lead byte in the first alternative:
[[()#;?]*(?:[0-9]{1,4}(?:;[0-9]{0,4})*)?[0-9A-ORZcf-nqry=><].
Returns the remainder of the greedily preferred match, if any. -/
def ansiLongBody (cs : List Char) : Option (List Char) :=
  let digit := pClass Char.isDigit
  let digitGroup :=
    pSeq (pSeq digit (pRepUpTo digit 3))
      (fun cs2 => pRepUpTo (pSeq (pClass (fun c => c == ';')) (pRepUpTo digit 4)) cs2.length cs2)
  let body :=
    pSeq (fun cs2 => pRepUpTo (pClass isInterChar) cs2.length cs2)
      (pSeq (pOpt digitGroup) (pClass isFinalByte))
  (body cs).head?

/-- Remainder after the match starting at a lead byte (the tail is the text
after the lead byte): the long alternative wins when it matches, otherwise
the lone lead byte alternative leaves the tail untouched. -/
def ansiMatchRest (tail : List Char) : List Char :=
  (ansiLongBody tail).getD tail

/-- Worker for stripAnsi: global replace by the empty string, resuming after
each match.  The fuel (initial length) only bounds the recursion depth; every
step consumes at least the character it looks at. -/
def stripAnsiAux : Nat → List Char → List Char
  | 0, cs => cs
  | _ + 1, [] => []
  | fuel + 1, c :: cs =>
    if isAnsiLead c then stripAnsiAux fuel (ansiMatchRest cs)
    else c :: stripAnsiAux fuel cs

/-- data.replace(this.ansiRegex, ''). -/
def stripAnsi (s : String) : String :=
  String.mk (stripAnsiAux s.length s.data)

mutual

/-- SanitizationEngine.sanitizeRecursively (lines 52-80): strings are
stripped of ANSI sequences, arrays map recursively, plain objects
(constructor === Object) recurse key-by-key, and every other value — class
instances, functions, the remaining primitives — is returned as-is. -/
def sanitizeRecursively : JSVal → JSVal
  | .vstr s => .vstr (stripAnsi s)
  | .varr l => .varr (sanArr l)
  | .vobj fields => .vobj (sanFields fields)
  | other => other

/-- Array branch of the sanitizer. -/
def sanArr : List JSVal → List JSVal
  | [] => []
  | v :: vs => sanitizeRecursively v :: sanArr vs

/-- Plain-object branch of the sanitizer (Object.keys reduce). -/
def sanFields : List (String × JSVal) → List (String × JSVal)
  | [] => []
  | (k, v) :: rest => (k, sanitizeRecursively v) :: sanFields rest

end

/-- A SanitizationEngine: its optional masking engine. -/
structure SanitizationEngineCfg where
  maskingEngine : Option MaskingEngineState := none

/-- SanitizationEngine.process (lines 34-40): sanitize recursively, then hand
the result to the masking engine when one is configured. -/
def sanProcess (san : SanitizationEngineCfg) (meta : JSObj) :
    JSObj × SanitizationEngineCfg :=
  let sanitized := sanitizeRecursively (.vobj meta)
  match san.maskingEngine with
  | none => (objFieldsOf sanitized, san)
  | some st =>
    let (m, st') := maskProcess st (objFieldsOf sanitized)
    (m, { maskingEngine := some st' })

/-! ## Logger orchestrator (src/Logger.ts)

The record is modelled as the ordered list of enrichment fields appended
after the base fields (timestamp, level, message, service); each appended
pair stands for the ,"key":JSON.stringify(value) fragment the source
concatenates onto the JSON string. -/

/-- The relevant per-instance state of a Logger. -/
structure LoggerCfg where
  bindings : JSObj := []
  useAsyncContext : Bool := true
  sanitizationEngine : Option SanitizationEngineCfg := none
  fieldFilter : Option LoggingMatrix := none

/-- store?.has(key) used in the duplicate-skipping filters (undefined counts
as false there). -/
def storeHas (store : Option JSObj) (key : String) : Bool :=
  match store with
  | some s => hasOwn s key
  | none => false

/-- Logger.collectValidBindings (lines 350-363): the bindings with their
undefined-valued keys dropped. -/
def collectValidBindings (bindings : JSObj) : JSObj :=
  ((jsKeys bindings).filter (fun key => !isUndefined (lookupV bindings key))).map
    (fun key => (key, lookupV bindings key))

/-- The contextData collection of processCompliancePipeline (lines 311-316):
the store entries with undefined values filtered out, empty without context. -/
def contextDataOf (hasContext : Bool) (store : Option JSObj) : JSObj :=
  if hasContext && store.isSome then
    (store.getD []).filter (fun kv => !isUndefined kv.2)
  else []

/-- JS object spread of two objects: first object's keys in order with the
second object's value winning on clashes, then the second object's new keys. -/
def objAssign (a b : JSObj) : JSObj :=
  a.map (fun kv => (kv.1, if hasOwn b kv.1 then lookupV b kv.1 else kv.2)) ++
    b.filter (fun kv => !hasOwn a kv.1)

/-- Logger.rebuildContextFromSanitized (lines 369-387): the sanitized keys
that were in the store and not in the bindings, with their sanitized values;
undefined when there is no context to rebuild. -/
def rebuildContextFromSanitized (lg : LoggerCfg) (sanitized : JSObj)
    (hasContext : Bool) (store : Option JSObj) : Option JSObj :=
  if !hasContext || store.isNone || !lg.useAsyncContext then none
  else
    some (((jsKeys sanitized).filter (fun key =>
        storeHas store key && !hasOwn lg.bindings key)).map
      (fun key => (key, lookupV sanitized key)))

/-- Logger.rebuildBindingsFromSanitized (lines 393-411): the sanitized keys
that were in the bindings and not in the context, with their sanitized
values. -/
def rebuildBindingsFromSanitized (lg : LoggerCfg) (sanitized : JSObj)
    (hasContext : Bool) (store : Option JSObj) : JSObj :=
  ((jsKeys sanitized).filter (fun key =>
      hasOwn lg.bindings key && !(hasContext && storeHas store key))).map
    (fun key => (key, lookupV sanitized key))

/-- Logger.processCompliancePipeline (lines 290-343): without a sanitization
engine the inputs pass through; otherwise the context is collected and
field-filtered, bindings, filtered context and metadata are merged with
metadata spread last, the merge is sanitized (and masked), and context and
bindings are rebuilt from the sanitized merge. -/
def processCompliancePipeline (lg : LoggerCfg) (metadata : JSObj)
    (hasContext : Bool) (store : Option JSObj) (level : LogLevel) :
    JSObj × Option JSObj × JSObj :=
  match lg.sanitizationEngine with
  | none => (metadata, if hasContext then store else none, lg.bindings)
  | some san =>
    let contextData := contextDataOf hasContext store
    let filteredContext :=
      if lg.fieldFilter.isSome && hasContext then
        filterContext (lg.fieldFilter.getD []) contextData level
      else contextData
    let combinedData :=
      objAssign (objAssign (collectValidBindings lg.bindings) filteredContext) metadata
    let sanitized := (sanProcess san combinedData).1
    let processedContext := rebuildContextFromSanitized lg sanitized hasContext store
    let processedBindings := rebuildBindingsFromSanitized lg sanitized hasContext store
    (sanitized, processedContext, processedBindings)

/-- The data argument of appendFieldsToJson. -/
structure AppendData where
  metadata : JSObj
  context : Option JSObj := none
  bindings : Option JSObj := none

/-- Logger.appendFieldsToJson (lines 418-463): appends the context fields
(from data.context when present, else the store), then the bindings skipping
keys the store holds, then the metadata skipping keys the store or the
bindings hold; keys with undefined values are dropped in every group. -/
def appendFieldsToJson (data : AppendData) (hasContext : Bool)
    (store : Option JSObj) : JSObj :=
  let contextPart :=
    if hasContext && (data.context.isSome || store.isSome) then
      let contextToUse := match data.context with
        | some c => c
        | none => store.getD []
      contextToUse.filter (fun kv => kv.1 != "" && !isUndefined kv.2)
    else []
  let bindingsPart :=
    match data.bindings with
    | none => []
    | some bnd =>
      (((jsKeys bnd).filter (fun key => key != "" && !isUndefined (lookupV bnd key))).filter
          (fun key => !hasContext || !storeHas store key)).map
        (fun key => (key, lookupV bnd key))
  let metadataPart :=
    (((jsKeys data.metadata).filter
        (fun key => key != "" && !isUndefined (lookupV data.metadata key))).filter
      (fun key =>
        (!hasContext || !storeHas store key) &&
        (match data.bindings with
         | none => true
         | some bnd => !hasOwn bnd key))).map
      (fun key => (key, lookupV data.metadata key))
  contextPart ++ bindingsPart ++ metadataPart

/-- Logger.writeLogEntry (lines 188-242), restricted to the enrichment
fields of the emitted record: the fast path emits no extra fields; without
compliance (async context disabled or no sanitization engine) the raw
metadata and bindings are appended against the live store; otherwise the
compliance pipeline's outputs are appended. -/
def writeLogEntryFields (lg : LoggerCfg) (metadata : JSObj)
    (hasContext : Bool) (store : Option JSObj) (level : LogLevel) : JSObj :=
  let hasBindings := !lg.bindings.isEmpty
  let hasMetadata := !metadata.isEmpty
  if !hasContext && !hasBindings && !hasMetadata then []
  else if !(lg.useAsyncContext && lg.sanitizationEngine.isSome) then
    appendFieldsToJson
      { metadata := metadata, bindings := some lg.bindings } hasContext store
  else
    let processed := processCompliancePipeline lg metadata hasContext store level
    appendFieldsToJson
      { metadata := processed.1
        context := processed.2.1
        bindings := some processed.2.2 } hasContext store

/-! ## Correlation context (src/context/Context.ts)

AsyncContext wraps an AsyncLocalStorage of Map<string, unknown>.  For the
synchronous programs the scope claims are about, AsyncLocalStorage.run is a
stack discipline: run pushes the given map as the current store for the
duration of the callback and restores the previous binding afterwards, and
get/set/clear act on the current store only.  The store stack is modelled
explicitly and scoped programs are a small deep embedding, so that scope
isolation is a theorem about the semantics rather than part of the model. -/

/-- One context store (a Map<string, string> for the claims at hand):
insertion-ordered entries with unique keys. -/
abbrev CtxStore := List (String × String)

/-- Map.prototype.set: overwrite in place, append when new. -/
def storeSet (k v : String) : CtxStore → CtxStore
  | [] => [(k, v)]
  | (k', v') :: rest =>
    if k' == k then (k', v) :: rest else (k', v') :: storeSet k v rest

/-- Map.prototype.get. -/
def storeGet (st : CtxStore) (k : String) : Option String :=
  (st.find? (fun e => e.1 == k)).map (fun e => e.2)

/-- The stack of stores entered by nested AsyncContext.run calls; the head is
the store AsyncLocalStorage.getStore currently resolves to. -/
abbrev CtxStack := List CtxStore

/-- AsyncContext.set (lines 298-300): a no-op outside any scope, otherwise a
write to the current store only. -/
def ctxSet (k v : String) : CtxStack → CtxStack
  | [] => []
  | st :: rest => storeSet k v st :: rest

/-- AsyncContext.get (lines 282-284): undefined outside any scope, otherwise
a read of the current store. -/
def ctxGet (k : String) : CtxStack → Option String
  | [] => none
  | st :: _ => storeGet st k

/-- The fresh map AsyncContext.run builds (lines 240-246): populated from the
initial data when given (new Map(Object.entries(initialData))), empty
otherwise; nothing of any enclosing scope is copied in. -/
def mkStore (init : List (String × String)) : CtxStore :=
  init.foldl (fun s kv => storeSet kv.1 kv.2 s) []

/-- Programs over the context API: sequences of set, get (recorded as an
observation) and nested scopes. -/
inductive CProg where
  | done : CProg
  | setv (k v : String) (rest : CProg) : CProg
  | readv (k : String) (rest : CProg) : CProg
  | runScope (init : List (String × String)) (body : CProg) (rest : CProg) : CProg

/-- Execution of a context program: returns the final store stack and the
list of observations made by the get calls, in order.  runScope executes the
body on a freshly pushed store and then restores the previous binding (pops
the scope's frame), exactly the AsyncLocalStorage.run discipline. -/
def exec : CProg → CtxStack → CtxStack × List (String × Option String)
  | .done, s => (s, [])
  | .setv k v rest, s => exec rest (ctxSet k v s)
  | .readv k rest, s =>
    ((exec rest s).1, (k, ctxGet k s) :: (exec rest s).2)
  | .runScope init body rest, s =>
    ((exec rest (((exec body (mkStore init :: s)).1).drop 1)).1,
     (exec body (mkStore init :: s)).2 ++
       (exec rest (((exec body (mkStore init :: s)).1).drop 1)).2)

/-! ## Concrete fixtures used by the closed theorems below -/

/-- A sample compiled field-name matcher: case-insensitive exact match,
standing in for a compiled RegExp test function. -/
def matchExact (pat : String) : String → Bool :=
  fun key => jsToLower key == jsToLower pat

/-- A rule whose pattern has the classic catastrophic-backtracking shape. -/
def dangerousShapeRule : MaskingRule :=
  { patternSrc := "(a+)+$", matcher := fun _ => false, strategy := .password }

/-- A plain email rule, as a pre-addRule input. -/
def emailStyleRule : MaskingRule :=
  { patternSrc := "email", matcher := matchExact "email", strategy := .email }

/-- The email rule as addRule stores it in a default-configured engine. -/
def emailRuleCompiled : MaskingRule :=
  { patternSrc := "email", matcher := matchExact "email", strategy := .email,
    customMask := none, preserveLength := some true, maskChar := some "*" }

/-- A token rule with preserve-length masking, as stored after addRule. -/
def tokenPreserveRule : MaskingRule :=
  { patternSrc := "token", matcher := matchExact "token", strategy := .token,
    preserveLength := some true, maskChar := some "*" }

/-- An engine holding only the preserve-length token rule. -/
def tokenEngine : MaskingEngineState := { rules := [tokenPreserveRule] }

/-- Logger with bindings a=2, b=2 and no sanitization engine (raw path). -/
def lgRawPrec : LoggerCfg := { bindings := [("a", .vnum 2), ("b", .vnum 2)] }

/-- The same logger with a sanitization engine (compliance path). -/
def lgCompPrec : LoggerCfg :=
  { bindings := [("a", .vnum 2), ("b", .vnum 2)], sanitizationEngine := some {} }

/-- Nested-scope program of end-to-end scenario 4: the outer scope sets
k=outer, an inner scope sets k=inner and exits, then the outer scope reads k. -/
def nestedScenario : CProg :=
  .runScope []
    (.setv "k" "outer"
      (.runScope [] (.setv "k" "inner" .done)
        (.readv "k" .done)))
    .done

/-! ## Theorems -/

/-- C8 counterexample: the claim asserts isLevelEnabled(L, L) for every level
L, but silent is one of the seven levels and the silent diagonal is false. -/
theorem isLevelEnabled_silent_diagonal_false :
    isLevelEnabled .silent .silent = false := by decide

/-- C8: level semantics, amended only on the diagonal clause: for every pair,
isLevelEnabled(candidate, configured) holds iff neither is silent and the
candidate weight is at least the configured weight; silent absorbs to false on
either side; and the diagonal is true for every level except silent. -/
theorem isLevelEnabled_characterization :
    (∀ c g : LogLevel, isLevelEnabled c g = true ↔
      c ≠ .silent ∧ g ≠ .silent ∧ LOG_LEVEL_WEIGHTS g ≤ LOG_LEVEL_WEIGHTS c) ∧
    (∀ x : LogLevel, isLevelEnabled .silent x = false ∧ isLevelEnabled x .silent = false) ∧
    (∀ L : LogLevel, L = .silent ∨ isLevelEnabled L L = true) := by
  refine ⟨?_, ?_, ?_⟩ <;> intro a <;> first
    | (intro b; revert a b; decide)
    | (revert a; decide)

/-- C4: evaluating the shipped validation at the claimed inputs: the basic
heuristics accept the catastrophic-backtracking shape (a+)+$ — none of the
dangerous-pattern regexes matches it, since they all require a quantifier on
a quantifier inside the group — so addRule accepts the rule instead of
raising the documented error; the safe pattern password|passwd is accepted
as the claim states. -/
theorem addRule_accepts_nested_quantifier_shape :
    isSafeRegexBasic "(a+)+$" = true ∧
    isSafeRegexBasic "password|passwd" = true ∧
    (∃ st', addRule { rules := [] } dangerousShapeRule = .ok st') := by
  refine ⟨by decide, by decide, ⟨_, rfl⟩⟩

/-- C2 counterexample: shutdown is a public engine operation after which the
rule list no longer contains the rule it contained before, refuting the
claim that every public operation only grows the list. -/
theorem shutdown_removes_rules :
    tokenPreserveRule ∈ tokenEngine.rules ∧
    tokenPreserveRule ∉ (shutdown tokenEngine).rules := by
  constructor
  · simp [tokenEngine]
  · simp [shutdown]

/-- C2 amended: the rule list only grows under every public operation except
shutdown — addRule only appends (one compiled rule at the tail), process,
getStats and isInitialized leave the list untouched — while shutdown resets
the engine and empties the list. -/
theorem maskingRules_append_only_except_shutdown :
    (∀ (st : MaskingEngineState) (r : MaskingRule) (st' : MaskingEngineState),
      addRule st r = .ok st' → ∃ c, st'.rules = st.rules ++ [c]) ∧
    (∀ (st : MaskingEngineState) (meta : JSObj),
      ((maskProcess st meta).2).rules = st.rules) ∧
    (∀ st : MaskingEngineState, ((getStats st).2).rules = st.rules) ∧
    (∀ st : MaskingEngineState, ((isInitialized st).2).rules = st.rules) ∧
    (∀ st : MaskingEngineState, (shutdown st).rules = []) := by
  refine ⟨?_, ?_, fun _ => rfl, fun _ => rfl, fun _ => rfl⟩
  · intro st r st' h
    unfold addRule at h
    split at h
    · exact absurd h (by simp)
    · simp only [Except.ok.injEq] at h
      subst h
      exact ⟨_, rfl⟩
  · intro st meta
    unfold maskProcess
    cases applyMaskingRules st.rules st.maskChar (.vobj meta) <;> rfl

/-- C2 witness: adding the email rule to an empty engine appends exactly one
compiled rule. -/
theorem maskingRules_append_only_witness :
    ∃ c, ({ rules := [emailRuleCompiled] } : MaskingEngineState).rules
      = ({ rules := [] } : MaskingEngineState).rules ++ [c] :=
  maskingRules_append_only_except_shutdown.1 { rules := [] } emailStyleRule _ rfl

/-- C1: evaluating the assembly at the specification's precedence example,
context a=1, bindings a=2 and b=2, metadata a=3.  On the raw path (no
sanitization engine) the record carries a=1 and b=2 — the context value wins,
because metadata keys already present in the store are skipped.  On the
compliance path the record carries only b=2 — the key a, present in all three
sources, is dropped from the rebuilt context and bindings and then skipped as
metadata.  The claimed a=3, b=2 is produced by neither path. -/
theorem precedence_example_on_both_paths :
    writeLogEntryFields lgRawPrec [("a", .vnum 3)] true (some [("a", .vnum 1)]) .info
      = [("a", .vnum 1), ("b", .vnum 2)] ∧
    writeLogEntryFields lgCompPrec [("a", .vnum 3)] true (some [("a", .vnum 1)]) .info
      = [("b", .vnum 2)] :=
  ⟨rfl, rfl⟩

/-- C3: the sanitizer alone returns class instances untouched (first two
conjuncts), but as soon as a masking engine is configured — even one with no
rules — the pipeline rebuilds a class instance into a plain object, because
the masking recursion descends into every non-array object: a Date value
comes back as an empty plain object instead of the original instance. -/
theorem masking_restructures_class_instances :
    sanitizeRecursively (.vinst "Date" []) = .vinst "Date" [] ∧
    (sanProcess { maskingEngine := none }
        [("instance", .vinst "CustomClass" [("value", .vstr "x")])]).1
      = [("instance", .vinst "CustomClass" [("value", .vstr "x")])] ∧
    (sanProcess { maskingEngine := some { rules := [] } }
        [("instance", .vinst "Date" [])]).1
      = [("instance", .vobj [])] :=
  ⟨rfl, rfl, rfl⟩

/-- Executing any context program changes at most the top store of the
stack: the frames below the current scope keep their length and content. -/
theorem exec_stack_shape (p : CProg) : ∀ s : CtxStack,
    ((exec p s).1).drop 1 = s.drop 1 ∧ ((exec p s).1).length = s.length := by
  induction p with
  | done => intro s; exact ⟨rfl, rfl⟩
  | setv k v rest ih =>
    intro s
    have hset : (ctxSet k v s).drop 1 = s.drop 1 ∧ (ctxSet k v s).length = s.length := by
      cases s <;> simp [ctxSet]
    have h := ih (ctxSet k v s)
    exact ⟨by rw [exec, h.1, hset.1], by rw [exec, h.2, hset.2]⟩
  | readv k rest ih =>
    intro s
    simpa [exec] using ih s
  | runScope init body rest ihb ihr =>
    intro s
    have hb : ((exec body (mkStore init :: s)).1).drop 1 = s := by
      simpa using (ihb (mkStore init :: s)).1
    have hr := ihr s
    constructor
    · rw [exec]; simpa [hb] using hr.1
    · rw [exec]; simpa [hb] using hr.2

/-- C5: scope isolation.  (1) After a nested scope exits, the store stack is
exactly what executing the continuation alone would produce — no mutation of
the inner scope is visible outside it.  (2) The first read inside a fresh
scope sees only the scope's own initial data, whatever the enclosing stack
holds — a child scope inherits nothing.  (3) End-to-end scenario 4: the outer
scope sets k=outer, an inner scope sets k=inner and exits, and the outer read
of k still yields outer. -/
theorem context_scope_isolation :
    (∀ (init : List (String × String)) (body rest : CProg) (s : CtxStack),
      (exec (.runScope init body rest) s).1 = (exec rest s).1) ∧
    (∀ (init : List (String × String)) (k : String) (rest : CProg) (s : CtxStack),
      ((exec (.runScope init (.readv k .done) rest) s).2).head?
        = some (k, storeGet (mkStore init) k)) ∧
    exec nestedScenario [] = ([], [("k", some "outer")]) := by
  refine ⟨?_, ?_, rfl⟩
  · intro init body rest s
    have hb : ((exec body (mkStore init :: s)).1).drop 1 = s := by
      simpa using (exec_stack_shape body (mkStore init :: s)).1
    rw [exec, hb]
  · intro init k rest s
    simp [exec, ctxGet]

/-- C7: process never propagates an exception.  When the masking recursion
throws (returns none), process yields the original metadata object unchanged
(fail-open); when it succeeds, process yields the masked result (guarded by
the record-shape check of lines 291-293). -/
theorem maskProcess_fail_open (st : MaskingEngineState) (meta : JSObj) :
    (applyMaskingRules st.rules st.maskChar (.vobj meta) = none →
      (maskProcess st meta).1 = meta) ∧
    (∀ m, applyMaskingRules st.rules st.maskChar (.vobj meta) = some m →
      (maskProcess st meta).1 = if isRecordLike m then objFieldsOf m else meta) := by
  constructor
  · intro h
    unfold maskProcess
    rw [h]
  · intro m h
    unfold maskProcess
    rw [h]

/-- C7 witness: the preserve-length token rule throws on the three-character
token (String.repeat with a negative count), and process indeed hands back
the original object; on an engine with no rules the masking succeeds and
process hands back the masked (here unchanged) record. -/
theorem maskProcess_fail_open_witness :
    (maskProcess tokenEngine [("token", .vstr "abc")]).1 = [("token", .vstr "abc")] ∧
    (maskProcess { rules := [] } [("x", .vstr "v")]).1 = [("x", .vstr "v")] :=
  ⟨(maskProcess_fail_open tokenEngine [("token", .vstr "abc")]).1 rfl,
   (maskProcess_fail_open { rules := [] } [("x", .vstr "v")]).2
     (.vobj [("x", .vstr "v")]) rfl⟩

/-- C9 counterexample: the TOKEN strategy with preserveLength enabled does
not return a same-length output on the eight-character input abcdefgh — it
throws a RangeError (maskChar.repeat(8 - 9)), modelled as none. -/
theorem token_preserve_length_throws_on_short_input :
    applyStrategy "*" tokenPreserveRule "abcdefgh" = none := rfl

/-- Length of a concatenated repeat. -/
theorem length_repeatStr (s : String) (n : Nat) :
    (repeatStr s n).length = n * s.length := by
  induction n with
  | zero => simp [repeatStr]
  | succ n ih =>
    simp [repeatStr, String.length_append, ih, Nat.succ_mul]
    omega

/-- jsRepeat succeeds exactly on nonnegative counts. -/
theorem jsRepeat_of_nonneg (s : String) (c : Int) (h : 0 ≤ c) :
    jsRepeat s c = some (repeatStr s c.toNat) := by
  simp [jsRepeat, not_lt.mpr h]

/-- The length of a singleton string. -/
theorem length_strMk (l : List Char) : (String.mk l).length = l.length := rfl

/-- In-place digit masking with a one-character mask preserves length. -/
theorem length_replaceDigitsMask (mc : String) (hmc : mc.length = 1) (keep : Int) :
    ∀ (cs : List Char) (idx : Nat),
      (replaceDigitsMask mc keep cs idx).length = cs.length := by
  intro cs
  induction cs with
  | nil => intro idx; rfl
  | cons c cs ih =>
    intro idx
    by_cases hd : c.isDigit <;> by_cases hlt : ((idx : Int) < keep) <;>
        simp [replaceDigitsMask, hd, hlt, String.length_append, ih, hmc, length_strMk] <;>
      omega

/-- Length of jsSubstring for in-range arguments. -/
theorem length_jsSubstring (s : String) (a b : Int) (h0 : 0 ≤ a) (hab : a ≤ b)
    (hb : b ≤ (s.length : Int)) :
    (jsSubstring s a b).length = (b - a).toNat := by
  have hdata : s.length = s.data.length := rfl
  unfold jsSubstring
  simp only [length_strMk, List.length_take, List.length_drop, min_def, max_def]
  split_ifs <;> omega

/-- Length of jsSubstringFrom for in-range arguments. -/
theorem length_jsSubstringFrom (s : String) (a : Int) (h0 : 0 ≤ a)
    (ha : a ≤ (s.length : Int)) :
    (jsSubstringFrom s a).length = ((s.length : Int) - a).toNat := by
  unfold jsSubstringFrom
  exact length_jsSubstring s a s.length h0 ha le_rfl

/-- charAt 0 of a nonempty string is one character long. -/
theorem length_jsCharAt_zero (s : String) (h : 0 < s.length) :
    (jsCharAt s 0).length = 1 := by
  unfold jsCharAt
  have : s.data.get? 0 = some (s.data.get ⟨0, h⟩) := List.get?_eq_get h
  rw [this]
  rfl

/-- A found index is inside the list. -/
theorem findIdx?_lt_length {α : Type} (p : α → Bool) :
    ∀ (l : List α) (i : Nat), l.findIdx? p = some i → i < l.length := by
  intro l
  induction l with
  | nil => intro i h; simp [List.findIdx?] at h
  | cons c cs ih =>
    intro i h
    rw [List.findIdx?_cons] at h
    by_cases hp : p c
    · simp [hp] at h
      subst h
      simp
    · simp [hp] at h
      obtain ⟨j, hj, rfl⟩ := h
      have := ih j hj
      simp
      omega

/-- jsIndexOf is inside the string when it is found. -/
theorem jsIndexOf_lt_length (s : String) (c : Char) (i : Int)
    (h : jsIndexOf s c = i) (hpos : 0 ≤ i) : i < (s.length : Int) := by
  unfold jsIndexOf at h
  cases hf : s.data.findIdx? (fun d => d == c) with
  | none =>
    rw [hf] at h
    simp at h
    omega
  | some j =>
    rw [hf] at h
    simp at h
    have := findIdx?_lt_length (fun d => d == c) s.data j hf
    have hdata : s.length = s.data.length := rfl
    omega

/-- The default strategy with preserveLength and a one-character mask returns
a same-length output. -/
theorem maskDefault_preserve_length (engMask : String) (rule : MaskingRule)
    (value : String) (hpl : rule.preserveLength = some true)
    (hmc : (rule.maskChar.getD engMask).length = 1) :
    ∃ out, maskDefault engMask rule value = some out ∧ out.length = value.length := by
  refine ⟨repeatStr (rule.maskChar.getD engMask) value.length, ?_, ?_⟩
  · simp only [maskDefault, hpl, Option.getD_some, if_true]
    rw [jsRepeat_of_nonneg _ _ (Int.natCast_nonneg _)]
    simp
  · rw [length_repeatStr, hmc, mul_one]

/-- The in-place digit strategies (credit card, SSN, phone) with
preserveLength and a one-character mask return same-length output. -/
theorem digit_mask_preserve_length (mc : String) (hmc : mc.length = 1)
    (keep : Int) (value : String) :
    (replaceDigitsMask mc keep value.data 0).length = value.length :=
  length_replaceDigitsMask mc hmc keep value.data 0

/-- C9 amended: with preserveLength enabled, a one-character mask character,
no caller-supplied custom function, and — for the TOKEN strategy — an input
of at least nine characters, every strategy returns an output of exactly the
input's length (TOKEN as first 4 + fill + last 5); and reprocessing the same
object with the engine state produced by a process call yields the same
output (masking is stable across repetition). -/
theorem preserve_length_strategies_same_length :
    (∀ (engMask : String) (rule : MaskingRule) (value : String),
      rule.preserveLength = some true →
      (rule.maskChar.getD engMask).length = 1 →
      (rule.strategy = .custom → rule.customMask = none) →
      (rule.strategy = .token → 9 ≤ value.length) →
      ∃ out, applyStrategy engMask rule value = some out ∧
        out.length = value.length) ∧
    (∀ (st : MaskingEngineState) (meta : JSObj),
      (maskProcess ((maskProcess st meta).2) meta).1 = (maskProcess st meta).1) := by
  constructor
  · intro engMask rule value hpl hmc hcust htok
    set mc := rule.maskChar.getD engMask with hmcdef
    cases hs : rule.strategy with
    | custom =>
      have hnone := hcust hs
      rw [applyStrategy, hs, hnone]
      exact maskDefault_preserve_length engMask rule value hpl hmc
    | password =>
      rw [applyStrategy, hs]
      have hgoal : ∃ out, maskPassword engMask rule value = some out ∧
          out.length = value.length := by
        refine ⟨repeatStr mc value.length, ?_, ?_⟩
        · simp only [maskPassword, ← hmcdef]
          rw [jsRepeat_of_nonneg _ _ (Int.natCast_nonneg _)]
          simp
        · rw [length_repeatStr, hmc, mul_one]
      cases hcm : rule.customMask <;> exact hgoal
    | credit_card =>
      rw [applyStrategy, hs]
      have hgoal : ∃ out, maskCreditCard engMask rule value = some out ∧
          out.length = value.length :=
        ⟨replaceDigitsMask mc ((digitsOf value).length - 4) value.data 0,
          by simp only [maskCreditCard, hpl, Option.getD_some, if_true, ← hmcdef],
          digit_mask_preserve_length mc hmc _ value⟩
      cases hcm : rule.customMask <;> exact hgoal
    | ssn =>
      rw [applyStrategy, hs]
      have hgoal : ∃ out, maskSSN engMask rule value = some out ∧
          out.length = value.length :=
        ⟨replaceDigitsMask mc ((digitsOf value).length - 4) value.data 0,
          by simp only [maskSSN, hpl, Option.getD_some, if_true, ← hmcdef],
          digit_mask_preserve_length mc hmc _ value⟩
      cases hcm : rule.customMask <;> exact hgoal
    | phone =>
      rw [applyStrategy, hs]
      have hgoal : ∃ out, maskPhone engMask rule value = some out ∧
          out.length = value.length :=
        ⟨replaceDigitsMask mc ((digitsOf value).length - 4) value.data 0,
          by simp only [maskPhone, hpl, Option.getD_some, if_true, ← hmcdef],
          digit_mask_preserve_length mc hmc _ value⟩
      cases hcm : rule.customMask <;> exact hgoal
    | token =>
      have hlen := htok hs
      rw [applyStrategy, hs]
      have hmid : jsRepeat mc ((value.length : Int) - 9)
          = some (repeatStr mc ((value.length : Int) - 9).toNat) :=
        jsRepeat_of_nonneg _ _ (by omega)
      have h04 : (jsSubstring value 0 4).length = 4 := by
        have := length_jsSubstring value 0 4 (by omega) (by omega) (by omega)
        simpa using this
      have h5 : (jsSubstringFrom value ((value.length : Int) - 5)).length = 5 := by
        have := length_jsSubstringFrom value ((value.length : Int) - 5)
          (by omega) (by omega)
        rw [this]
        omega
      have hgoal : ∃ out, maskToken engMask rule value = some out ∧
          out.length = value.length := by
        refine ⟨jsSubstring value 0 4 ++ repeatStr mc ((value.length : Int) - 9).toNat
          ++ jsSubstringFrom value ((value.length : Int) - 5), ?_, ?_⟩
        · unfold maskToken
          rw [← hmcdef, hpl]
          simp only [Option.getD_some, if_true]
          rw [hmid]
          rfl
        · simp only [String.length_append, h04, h5, length_repeatStr, hmc, mul_one]
          omega
      cases hcm : rule.customMask <;> exact hgoal
    | email =>
      rw [applyStrategy, hs]
      have hgoal : ∃ out, maskEmail engMask rule value = some out ∧
          out.length = value.length := by
        by_cases hat : jsIndexOf value '@' ≤ 0
        · rw [maskEmail, if_pos hat]
          exact maskDefault_preserve_length engMask rule value hpl hmc
        · push_neg at hat
          have hub : jsIndexOf value '@' < (value.length : Int) :=
            jsIndexOf_lt_length value '@' _ rfl (le_of_lt hat)
          have hule : (jsSubstring value 0 (jsIndexOf value '@')).length
              = (jsIndexOf value '@').toNat := by
            have := length_jsSubstring value 0 (jsIndexOf value '@')
              (by omega) (by omega) (by omega)
            simpa using this
          have hdom : (jsSubstringFrom value (jsIndexOf value '@')).length
              = ((value.length : Int) - jsIndexOf value '@').toNat :=
            length_jsSubstringFrom value _ (by omega) (by omega)
          rw [maskEmail, if_neg (not_le.mpr hat)]
          simp only [hpl, Option.getD_some, if_true, ← hmcdef]
          by_cases hu : 1 < (jsSubstring value 0 (jsIndexOf value '@')).length
          · rw [if_pos hu]
            have hrep : jsRepeat mc
                (((jsSubstring value 0 (jsIndexOf value '@')).length : Int) - 1)
                = some (repeatStr mc
                  (((jsSubstring value 0 (jsIndexOf value '@')).length : Int) - 1).toNat) :=
              jsRepeat_of_nonneg _ _ (by omega)
            refine ⟨jsCharAt (jsSubstring value 0 (jsIndexOf value '@')) 0
              ++ repeatStr mc
                (((jsSubstring value 0 (jsIndexOf value '@')).length : Int) - 1).toNat
              ++ jsSubstringFrom value (jsIndexOf value '@'), by rw [hrep]; rfl, ?_⟩
            have hchar : (jsCharAt (jsSubstring value 0 (jsIndexOf value '@')) 0).length
                = 1 :=
              length_jsCharAt_zero _ (by omega)
            simp only [String.length_append, hchar, length_repeatStr, hmc, mul_one,
              hdom, hule] at *
            omega
          · rw [if_neg hu]
            have hrep : jsRepeat mc
                ((jsSubstring value 0 (jsIndexOf value '@')).length : Int)
                = some (repeatStr mc
                  ((jsSubstring value 0 (jsIndexOf value '@')).length : Int).toNat) :=
              jsRepeat_of_nonneg _ _ (by omega)
            refine ⟨repeatStr mc
                ((jsSubstring value 0 (jsIndexOf value '@')).length : Int).toNat
              ++ jsSubstringFrom value (jsIndexOf value '@'), by rw [hrep]; rfl, ?_⟩
            simp only [String.length_append, length_repeatStr, hmc, mul_one,
              hdom, hule] at *
            omega
      cases hcm : rule.customMask <;> exact hgoal
  · intro st meta
    cases h : applyMaskingRules st.rules st.maskChar (.vobj meta) <;>
      simp [maskProcess, h]

/-- C9 witness: the token rule applied to a nine-character value returns a
same-length masked output. -/
theorem preserve_length_strategies_witness :
    ∃ out, applyStrategy "*" tokenPreserveRule "abcd12345" = some out ∧
      out.length = ("abcd12345" : String).length :=
  preserve_length_strategies_same_length.1 "*" tokenPreserveRule "abcd12345"
    rfl (by decide) (fun _ => rfl) (fun _ => by decide)

/-- Filtering an object's keys and re-reading each through the object is the
same as filtering the object's entries, provided the keys are unique (as they
always are for a JS object). -/
theorem keysFilterMap_eq_filter (P : String → Bool) :
    ∀ ctx : JSObj, (jsKeys ctx).Nodup →
      ((jsKeys ctx).filter (fun k => hasOwn ctx k && P k)).map
          (fun k => (k, lookupV ctx k))
        = ctx.filter (fun kv => P kv.1) := by
  intro ctx
  induction ctx with
  | nil => intro _; rfl
  | cons kv rest ih =>
    intro h
    obtain ⟨k, v⟩ := kv
    have h2 : (k :: jsKeys rest).Nodup := h
    have hk : k ∉ jsKeys rest := (List.nodup_cons.mp h2).1
    have hrest : (jsKeys rest).Nodup := (List.nodup_cons.mp h2).2
    have hne : ∀ k' ∈ jsKeys rest, (k == k') = false := by
      intro k' hk'
      rcases hbe : (k == k') with _ | _
      · rfl
      · exact absurd (by rw [beq_iff_eq.mp hbe]; exact hk') hk
    have hOwnTail : ∀ k' ∈ jsKeys rest,
        hasOwn ((k, v) :: rest) k' = hasOwn rest k' := by
      intro k' hk'
      simp [hasOwn, List.find?, hne k' hk']
    have hLookTail : ∀ k' ∈ jsKeys rest,
        lookupV ((k, v) :: rest) k' = lookupV rest k' := by
      intro k' hk'
      simp [lookupV, List.find?, hne k' hk']
    have htail :
        ((jsKeys rest).filter
            (fun k' => hasOwn ((k, v) :: rest) k' && P k')).map
          (fun k' => (k', lookupV ((k, v) :: rest) k'))
        = rest.filter (fun kv => P kv.1) := by
      rw [List.filter_congr (fun k' hk' => by rw [hOwnTail k' hk'])]
      rw [List.map_congr_left (fun k' hk' => by
        rw [hLookTail k' (List.mem_filter.mp hk').1])]
      exact ih hrest
    have hkeys : jsKeys ((k, v) :: rest) = k :: jsKeys rest := rfl
    have hOwnHead : hasOwn ((k, v) :: rest) k = true := by
      simp [hasOwn, List.find?]
    rw [hkeys, List.filter_cons, List.filter_cons]
    simp only [hOwnHead, Bool.true_and]
    have hLookHead : lookupV ((k, v) :: rest) k = v := by
      simp [lookupV, List.find?]
    by_cases hP : P k
    · simp only [hP, if_true, List.map_cons, hLookHead, htail]
    · simp only [hP, Bool.false_eq_true, if_false, htail]

/-- C6: the source field filter agrees with the specification's description
of it — pass-through without a configured matrix, level entry with fallback
to default only when the level is absent, fail-closed on an empty or missing
allow-list, wildcard pass-through, and otherwise case-insensitive key
filtering that preserves the original keys and values. -/
theorem filterContext_matches_spec (m : LoggingMatrix) (ctx : JSObj)
    (level : LogLevel) (h : (jsKeys ctx).Nodup) :
    filterContext m ctx level = filterContextSpec m ctx level := by
  unfold filterContext filterContextSpec
  by_cases hm : m.isEmpty
  · simp [hm]
  · simp only [hm, if_false]
    cases hres : matrixGet m (.level level) with
    | some allow =>
      simp only [Option.orElse, Option.some_orElse]
      by_cases hempty : allow.isEmpty
      · simp [hempty]
      · simp only [hempty, if_false]
        by_cases hstar : allow.contains "*"
        · have hmem : "*" ∈ allow := by simpa using hstar
          simp [hmem]
        · simp only [hstar, if_false]
          exact keysFilterMap_eq_filter _ ctx h
    | none =>
      simp only [Option.orElse, Option.none_orElse]
      cases hdfl : matrixGet m .dflt with
      | some allow =>
        by_cases hempty : allow.isEmpty
        · simp [hempty]
        · simp only [hempty, if_false]
          by_cases hstar : allow.contains "*"
          · have hmem : "*" ∈ allow := by simpa using hstar
            simp [hmem]
          · simp only [hstar, if_false]
            exact keysFilterMap_eq_filter _ ctx h
      | none => rfl

/-- C6 witness: the case-insensitive example — CorrelationId in the context
survives a matrix whose default allow-list holds correlationid, the secret
key does not. -/
theorem filterContext_matches_spec_witness :
    (jsKeys [("CorrelationId", JSVal.vstr "c1"), ("secret", JSVal.vstr "s")]).Nodup ∧
    filterContext [(MatrixKey.dflt, ["correlationid"])]
        [("CorrelationId", JSVal.vstr "c1"), ("secret", JSVal.vstr "s")] .info
      = filterContextSpec [(MatrixKey.dflt, ["correlationid"])]
        [("CorrelationId", JSVal.vstr "c1"), ("secret", JSVal.vstr "s")] .info :=
  ⟨by decide, filterContext_matches_spec _ _ _ (by decide)⟩

/-- C10: every field appended to a record carries a defined value — the
context, bindings and metadata groups of appendFieldsToJson all drop keys
whose value is undefined — and the compliance pipeline's inputs are cleaned
the same way before sanitization, both the collected bindings and the
collected context entries. -/
theorem record_fields_are_defined :
    (∀ (data : AppendData) (hasContext : Bool) (store : Option JSObj),
      (appendFieldsToJson data hasContext store).all (fun kv => !isUndefined kv.2) = true) ∧
    (∀ bindings : JSObj,
      (collectValidBindings bindings).all (fun kv => !isUndefined kv.2) = true) ∧
    (∀ (hasContext : Bool) (store : Option JSObj),
      (contextDataOf hasContext store).all (fun kv => !isUndefined kv.2) = true) := by
  refine ⟨?_, ?_, ?_⟩
  · intro data hasContext store
    unfold appendFieldsToJson
    simp only [List.all_append, Bool.and_eq_true, List.all_eq_true]
    refine ⟨⟨?_, ?_⟩, ?_⟩
    · intro kv hkv
      split at hkv
      · have := (List.mem_filter.mp hkv).2
        simp only [Bool.and_eq_true] at this
        exact this.2
      · simp at hkv
    · intro kv hkv
      cases hb : data.bindings with
      | none => rw [hb] at hkv; simp at hkv
      | some bnd =>
        rw [hb] at hkv
        obtain ⟨key, hkey, rfl⟩ := List.mem_map.mp hkv
        have h1 := (List.mem_filter.mp (List.mem_filter.mp hkey).1).2
        simp only [Bool.and_eq_true] at h1
        exact h1.2
    · intro kv hkv
      obtain ⟨key, hkey, rfl⟩ := List.mem_map.mp hkv
      have h1 := (List.mem_filter.mp (List.mem_filter.mp hkey).1).2
      simp only [Bool.and_eq_true] at h1
      exact h1.2
  · intro bindings
    unfold collectValidBindings
    simp only [List.all_eq_true]
    intro kv hkv
    obtain ⟨key, hkey, rfl⟩ := List.mem_map.mp hkv
    exact (List.mem_filter.mp hkey).2
  · intro hasContext store
    unfold contextDataOf
    simp only [List.all_eq_true]
    intro kv hkv
    split at hkv
    · exact (List.mem_filter.mp hkv).2
    · simp at hkv

end SynLog
